import Mathlib

/-!
Verification of `nautilus-age-extension.py` (age-nautilus-extension).

This file shallowly embeds the pure decision logic of the extension:
Python strings become Lean `String`s (manipulated through their `data`
character lists), the in-memory rate-limit ledger (`self._failed_attempts`,
a `defaultdict(list)` keyed by file path) becomes an association list,
timestamps become rationals, and each subprocess interaction is a
parameter describing its observable outcome.  Filesystem contents are a
list of existing paths.
-/

namespace AgeNautilus

/-- Python `s.startswith(pre)`. -/
def pyStartsWith (s pre : String) : Bool := decide (pre.data <+: s.data)

/-- Python `s.endswith(suf)`. -/
def pyEndsWith (s suf : String) : Bool := decide (suf.data <:+ s.data)

/-- Python `sub in s` (substring containment). -/
def pyContains (s sub : String) : Bool := decide (sub.data <:+: s.data)

/-- Python `s[:-n]` for `n ≤ len(s)` (and `''` when `n` exceeds the length). -/
def pySliceDropLast (s : String) (n : Nat) : String := ⟨s.data.take (s.data.length - n)⟩

/-- Python `s.split(c)` for a single-character separator: splits at every
occurrence of `c`, keeping empty components. -/
def pySplit (c : Char) : List Char → List (List Char)
  | [] => [[]]
  | x :: xs =>
    if x = c then [] :: pySplit c xs
    else
      match pySplit c xs with
      | [] => [[x]]
      | y :: ys => (x :: y) :: ys

theorem pySplit_cons_structure (c : Char) (s : List Char) :
    ∃ y ys, pySplit c s = y :: ys ∧ y <+: s ∧ ∀ t ∈ ys, t <:+: s := by
  induction s with
  | nil => exact ⟨[], [], rfl, List.nil_prefix, by simp⟩
  | cons x xs ih =>
    obtain ⟨y, ys, hsplit, hpre, hinf⟩ := ih
    by_cases hx : x = c
    · refine ⟨[], pySplit c xs, by simp [pySplit, hx], List.nil_prefix, ?_⟩
      intro t ht
      rw [hsplit] at ht
      rcases List.mem_cons.mp ht with h1 | h1
      · exact List.infix_cons (h1 ▸ hpre.isInfix)
      · exact List.infix_cons (hinf t h1)
    · refine ⟨x :: y, ys, ?_, ?_, ?_⟩
      · simp [pySplit, hx, hsplit]
      · exact List.cons_prefix_cons.mpr ⟨rfl, hpre⟩
      · intro t ht
        exact List.infix_cons (hinf t ht)

theorem infix_of_mem_pySplit {c : Char} {s t : List Char} (h : t ∈ pySplit c s) :
    t <:+: s := by
  obtain ⟨y, ys, hsplit, hpre, hinf⟩ := pySplit_cons_structure c s
  rw [hsplit] at h
  rcases List.mem_cons.mp h with h1 | h1
  · exact h1 ▸ hpre.isInfix
  · exact hinf t h1

/-! ## Rate limiting (`check_rate_limit` / `record_failed_attempt` /
`clear_failed_attempts`, source lines 312-343)

`self._failed_attempts` is a `defaultdict(list)` mapping a file path to the
list of failure timestamps; reading a missing key inserts an empty entry.
We model it as an association list and `time.time()` as a rational. -/

def RATE_LIMIT_MAX_ATTEMPTS : Nat := 3
def RATE_LIMIT_LOCKOUT_SECONDS : ℚ := 30
def RATE_LIMIT_WINDOW_SECONDS : ℚ := 300

abbrev Ledger := List (String × List ℚ)

/-- Dictionary lookup: `d[k]` when present. -/
def ledgerLookup (l : Ledger) (k : String) : Option (List ℚ) :=
  (l.find? (fun e => e.1 = k)).map (·.2)

/-- Dictionary update `d[k] = v` (also models the `defaultdict` inserting a
fresh entry on first access). -/
def ledgerSet (l : Ledger) (k : String) (v : List ℚ) : Ledger :=
  (k, v) :: l.filter (fun e => ¬(e.1 = k))

/-- Dictionary `d.pop(k, None)`. -/
def ledgerPop (l : Ledger) (k : String) : Ledger :=
  l.filter (fun e => ¬(e.1 = k))

/-- `check_rate_limit(self, file_path)`: reads (and thereby materialises) the
entry for `file_path`, prunes timestamps older than the window, stores the
pruned list back, and refuses when three or more recent failures exist and the
last one is less than the lockout duration ago.  Returns the decision together
with the updated ledger. -/
def check_rate_limit (now : ℚ) (l : Ledger) (file_path : String) : Bool × Ledger :=
  let attempts0 := (ledgerLookup l file_path).getD []
  let attempts := attempts0.filter (fun t => now - t < RATE_LIMIT_WINDOW_SECONDS)
  let l1 := ledgerSet l file_path attempts
  if RATE_LIMIT_MAX_ATTEMPTS ≤ attempts.length then
    let last_attempt := attempts.getLastD 0
    let wait_time := RATE_LIMIT_LOCKOUT_SECONDS - (now - last_attempt)
    if 0 < wait_time then (false, l1) else (true, l1)
  else (true, l1)

/-- `record_failed_attempt(self, file_path)`: appends `time.time()` to the
entry (creating it when absent). -/
def record_failed_attempt (now : ℚ) (l : Ledger) (file_path : String) : Ledger :=
  ledgerSet l file_path (((ledgerLookup l file_path).getD []) ++ [now])

/-- `clear_failed_attempts(self, file_path)`: `self._failed_attempts.pop(file_path, None)`. -/
def clear_failed_attempts (l : Ledger) (file_path : String) : Ledger :=
  ledgerPop l file_path

/-! ## Decrypted-output naming (`_do_decrypt_files`, source lines 644-647) -/

/-- `decrypted_path = file_path[:-4] if file_path.endswith('.age') else
file_path + ".decrypted"`. -/
def decryptedPathOf (file_path : String) : String :=
  if pyEndsWith file_path ".age" then pySliceDropLast file_path 4
  else file_path ++ ".decrypted"

/-! ## PTY channel (`encrypt_file` / `decrypt_file`, source lines 685-840)

The observable outcome of the `age` subprocess run is abstracted as an event:
either `communicate` completed with an exit code (and the output file either
exists or not at that moment), or the wait timed out, or an `OSError` /
other exception was raised; in each non-completed case the output file may or
may not have been partially written. -/

inductive PtyEvent where
  | completed (returncode : Int) (outputExists : Bool)
  | timedOut (outputExists : Bool)
  | osError (outputExists : Bool)
  | otherError (outputExists : Bool)
deriving DecidableEq, Repr

/-- Result of one `encrypt_file`/`decrypt_file` call: the returned boolean and
whether a file still exists at `output_path` afterwards. -/
structure FileOpResult where
  success : Bool
  outputExists : Bool
deriving DecidableEq, Repr

/-- `encrypt_file(self, input_path, output_path, password)`: success requires
returncode 0 and the output file existing; on that branch failing, the partial
output is removed.  On `TimeoutExpired`, `OSError` and generic exceptions the
function returns `False` without touching the output file. -/
def encrypt_file (ev : PtyEvent) : FileOpResult :=
  match ev with
  | .completed rc out =>
    if rc = 0 ∧ out then ⟨true, true⟩ else ⟨false, false⟩
  | .timedOut out => ⟨false, out⟩
  | .osError out => ⟨false, out⟩
  | .otherError out => ⟨false, out⟩

/-- `decrypt_file(self, input_path, output_path, password)`: same completed-run
logic as `encrypt_file`, but the `TimeoutExpired`, `OSError` and generic
exception handlers each also remove a leftover output file. -/
def decrypt_file (ev : PtyEvent) : FileOpResult :=
  match ev with
  | .completed rc out =>
    if rc = 0 ∧ out then ⟨true, true⟩ else ⟨false, false⟩
  | .timedOut _ => ⟨false, false⟩
  | .osError _ => ⟨false, false⟩
  | .otherError _ => ⟨false, false⟩

/-! ## Path validation (`validate_path`, source lines 276-310)

`os.path.realpath` is an oracle parameter (its answer depends on the live
filesystem); everything after fits in pure string logic. -/

def dangerousPrefixes : List String :=
  ["/bin", "/sbin", "/usr", "/etc", "/var", "/boot", "/root"]

/-- `os.path.isabs(path)` on POSIX: starts with a slash. -/
def pyIsAbs (path : String) : Bool := pyStartsWith path "/"

/-- `validate_path(self, path)`: requires an absolute path, resolves it, rejects
a resolved path containing a `..` segment, and rejects resolved paths equal to
or under one of the dangerous system prefixes. -/
def validate_path (realpath : String → String) (path : String) : Bool :=
  if ¬(pyIsAbs path = true) then false
  else
    let resolved := realpath path
    if "..".data ∈ pySplit '/' resolved.data then false
    else if dangerousPrefixes.any
        (fun pre => pyStartsWith resolved (pre ++ "/") || resolved == pre) then false
    else true

/-! ## Secure deletion (`secure_delete`, source lines 854-870)

`subprocess.run(['shred', ...], check=True)` either succeeds (shred's `-u`
removes the file), raises `CalledProcessError` (nonzero exit — the only
exception the function catches, triggering the `os.remove` fallback), or
raises `FileNotFoundError` when the tool is not installed. -/

inductive ShredOutcome where
  | shredOk
  | exitNonzero
  | toolMissing
deriving DecidableEq, Repr

/-- Result of `secure_delete`: whether the target file still exists, and
whether an exception escaped to the caller. -/
structure DeleteResult where
  fileExists : Bool
  raised : Bool
deriving DecidableEq, Repr

/-- `secure_delete(self, file_path)`.  `fallbackRemoveOk` tells whether the
fallback `os.remove` would succeed (its `OSError` is caught and only logged). -/
def secure_delete (o : ShredOutcome) (fallbackRemoveOk : Bool) : DeleteResult :=
  match o with
  | .shredOk => ⟨false, false⟩
  | .exitNonzero => if fallbackRemoveOk then ⟨false, false⟩ else ⟨true, false⟩
  | .toolMissing => ⟨true, true⟩

/-! ## Archive safety check inside `_do_decrypt_files` (source lines 653-671)

After a successful decryption of a `.tar.gz`, the code lists the members with
`tar -tzf`; if listing succeeds, any member starting with `/` or containing
`..` raises `ValueError` — which is **not** caught by the surrounding
`except subprocess.CalledProcessError` handler.  Only when no member is
suspicious (or listing failed) does `tar -xzf` run. -/

/-- `member.startswith('/') or '..' in member`. -/
def suspiciousMember (member : String) : Bool :=
  pyStartsWith member "/" || pyContains member ".."

/-- Outcome of the automatic-extraction block for one decrypted file. -/
inductive ArchiveStep where
  | notArchive
  | rejected (member : String)
  | extractedOk
  | extractFailed
deriving DecidableEq, Repr

/-- Environment of one `_do_decrypt_files` run: the wall clock, and the
observable outcome of each subprocess consulted per path. -/
structure DecryptEnv where
  now : ℚ
  verifyOk : String → Bool
  passwordGiven : Bool
  decryptOk : String → Bool
  tarListing : String → Option (List String)
  tarExtractFails : String → Bool

/-- The `decrypted_path.endswith('.tar.gz')` block of `_do_decrypt_files`. -/
def handleArchive (env : DecryptEnv) (decrypted_path : String) : ArchiveStep :=
  if ¬(pyEndsWith decrypted_path ".tar.gz" = true) then .notArchive
  else
    match env.tarListing decrypted_path with
    | some members =>
      match members.find? suspiciousMember with
      | some m => .rejected m
      | none =>
        if env.tarExtractFails decrypted_path then .extractFailed else .extractedOk
    | none =>
      if env.tarExtractFails decrypted_path then .extractFailed else .extractedOk

/-- Whether the `tar -xzf` extraction subprocess was ever spawned in this step. -/
def extractionInvoked : ArchiveStep → Bool
  | .notArchive => false
  | .rejected _ => false
  | .extractedOk => true
  | .extractFailed => true

/-! ## Batch decryption (`_do_decrypt_files`, source lines 611-683) -/

/-- The first loop of `_do_decrypt_files`: runs `check_rate_limit` on every
path in order; at the first refusal the whole handler returns.  Yields the
blocking path (if any) and the ledger as mutated by the checks performed. -/
def checkAllRateLimits (now : ℚ) (l : Ledger) : List String → Option String × Ledger
  | [] => (none, l)
  | p :: rest =>
    let r := check_rate_limit now l p
    if r.1 then checkAllRateLimits now r.2 rest else (some p, r.2)

/-- How one `_do_decrypt_files` call terminates. -/
inductive BatchOutcome where
  | rateLimited (file_path : String)
  | invalidFiles (names : List String)
  | cancelled
  | uncaughtValueError (member : String)
  | completed (success_count fail_count : Nat)
deriving DecidableEq, Repr

/-- State threaded through the main decryption loop: the outcome so far, the
rate-limit ledger, and the decrypted archives whose extraction succeeded. -/
structure BatchState where
  outcome : BatchOutcome
  ledger : Ledger
  extracted : List String
deriving Repr

/-- The main loop of `_do_decrypt_files`: per path, attempt decryption; on
success clear the rate ledger and run the archive block (where a suspicious
member raises `ValueError`, which escapes the whole loop); on failure record a
failed attempt and continue. -/
def decryptLoop (env : DecryptEnv) (l : Ledger) (success_count fail_count : Nat)
    (extracted : List String) : List String → BatchState
  | [] => ⟨.completed success_count fail_count, l, extracted⟩
  | file_path :: rest =>
    let decrypted_path := decryptedPathOf file_path
    if env.decryptOk file_path then
      let l1 := clear_failed_attempts l file_path
      match handleArchive env decrypted_path with
      | .rejected m => ⟨.uncaughtValueError m, l1, extracted⟩
      | .extractedOk =>
        decryptLoop env l1 (success_count + 1) fail_count (extracted ++ [decrypted_path]) rest
      | _ =>
        decryptLoop env l1 (success_count + 1) fail_count extracted rest
    else
      decryptLoop env (record_failed_attempt env.now l file_path)
        success_count (fail_count + 1) extracted rest

/-- `os.path.basename(p)` on POSIX: the part after the last slash. -/
def pyBasename (p : String) : String := ⟨(pySplit '/' p.data).getLastD []⟩

/-- `_do_decrypt_files(self, paths)`: rate-limit gate over all paths, then
header verification of all paths (collecting basenames of invalid ones), then
the password prompt, then the decryption loop. -/
def do_decrypt_files (env : DecryptEnv) (l : Ledger) (paths : List String) : BatchState :=
  match checkAllRateLimits env.now l paths with
  | (some p, l1) => ⟨.rateLimited p, l1, []⟩
  | (none, l1) =>
    let invalid_files := (paths.filter (fun p => ¬(env.verifyOk p = true))).map pyBasename
    if ¬(invalid_files = []) then ⟨.invalidFiles invalid_files, l1, []⟩
    else if ¬(env.passwordGiven = true) then ⟨.cancelled, l1, []⟩
    else decryptLoop env l1 0 0 [] paths

/-! ## Output naming and file effects of `_do_encrypt_items`
(source lines 493-605)

Only the parts the claims speak about are modelled: the output-name
computation (steps 5-7) and the create/remove effects on the output
directory (tar creation, encryption, tar removal, optional deletion of the
originals).  The staging-directory copy (steps 2-4) happens in an unrelated
temporary directory and is elided. -/

/-- POSIX `os.path.normpath` (pure lexical normalisation), component loop:
`acc` is the `new_comps` list in reverse. -/
def normpathLoop (isAbs : Bool) : List (List Char) → List (List Char) → List (List Char)
  | acc, [] => acc
  | acc, comp :: rest =>
    if comp = [] ∨ comp = ['.'] then normpathLoop isAbs acc rest
    else if ¬(comp = ['.', '.']) ∨ (isAbs = false ∧ acc = [])
        ∨ (¬(acc = []) ∧ acc.headD [] = ['.', '.']) then
      normpathLoop isAbs (comp :: acc) rest
    else
      normpathLoop isAbs acc.tail rest

/-- POSIX `os.path.normpath`. -/
def pyNormpath (p : String) : String :=
  if p = "" then "." else
  let slashes : Nat :=
    if pyStartsWith p "//" = true ∧ pyStartsWith p "///" = false then 2
    else if pyStartsWith p "/" = true then 1 else 0
  let comps := pySplit '/' p.data
  let newComps := (normpathLoop (¬(slashes = 0)) [] comps).reverse
  let joined := List.replicate slashes '/' ++ (List.intercalate ['/'] newComps)
  if joined = [] then "." else ⟨joined⟩

/-- POSIX `os.path.dirname(p)`: everything up to the last slash, with trailing
slashes stripped unless the result is all slashes. -/
def pyDirname (p : String) : String :=
  let head := (p.data.reverse.dropWhile (fun c => ¬(c = '/'))).reverse
  if ¬(head = []) ∧ head.any (fun c => ¬(c = '/')) then
    ⟨(head.reverse.dropWhile (fun c => c = '/')).reverse⟩
  else ⟨head⟩

/-- POSIX `os.path.join(a, b)` for two components. -/
def pyJoin (a b : String) : String :=
  if pyStartsWith b "/" then b
  else if a = "" ∨ pyEndsWith a "/" then a ++ b
  else a ++ "/" ++ b

/-- Filesystem as the set (list) of existing paths. -/
abbrev FileSys := List String

def createFile (fs : FileSys) (p : String) : FileSys :=
  if p ∈ fs then fs else p :: fs

def removeFile (fs : FileSys) (p : String) : FileSys :=
  fs.filter (fun q => ¬(q = p))

/-- Observable outcome of one `_do_encrypt_items` call. -/
structure EncryptOutcome where
  fs : FileSys
  success : Bool
  encryptedPath : String
  tarPath : String
deriving Repr

/-- `_do_encrypt_items(self, paths)`, output side: computes
`output_dir`/`bundle_name` (steps 5), creates `tar_path` (step 6), encrypts to
`encrypted_path = tar_path + ".age"` (step 7; on failure `encrypt_file` leaves
no output), removes `tar_path` (step 8), and deletes the originals when
requested and successful (step 9). -/
def do_encrypt_items (fs0 : FileSys) (paths : List String) (timestamp : String)
    (encryptSucceeds delete_originals : Bool) : EncryptOutcome :=
  match paths with
  | [] => ⟨fs0, false, "", ""⟩
  | p0 :: _ =>
    let output_dir := pyDirname (pyNormpath p0)
    let bundle_name :=
      if paths.length = 1 then pyBasename (pyNormpath p0)
      else "encrypted_bundle_" ++ timestamp
    let tar_path := pyJoin output_dir (bundle_name ++ ".tar.gz")
    let encrypted_path := tar_path ++ ".age"
    let fs1 := createFile fs0 tar_path
    let fs2 := if encryptSucceeds then createFile fs1 encrypted_path else fs1
    let fs3 := removeFile fs2 tar_path
    let fs4 :=
      if encryptSucceeds ∧ delete_originals then paths.foldl removeFile fs3 else fs3
    ⟨fs4, encryptSucceeds, encrypted_path, tar_path⟩

/-! ## Sample environments for concrete runs -/

/-- An environment whose tar listing reports a member with a parent-directory
segment. -/
def envBadArchive : DecryptEnv :=
  ⟨0, fun _ => true, true, fun _ => true, fun _ => some ["a", "../b"], fun _ => false⟩

/-- An environment where every target verifies and decrypts, with no archive
payloads. -/
def envAllOk : DecryptEnv :=
  ⟨100, fun _ => true, true, fun _ => true, fun _ => none, fun _ => false⟩

/-- A ledger holding three recent failures for `a.age` (relative to time 100). -/
def lockedLedger : Ledger := [("a.age", [70, 80, 90])]

/-- An environment where only `b.age` decrypts successfully. -/
def envMixed : DecryptEnv :=
  ⟨0, fun _ => true, true, fun p => p == "b.age", fun _ => none, fun _ => false⟩

/-! ## Helper lemmas about the ledger and the filesystem model -/

theorem ledgerLookup_set_self (l : Ledger) (k : String) (v : List ℚ) :
    ledgerLookup (ledgerSet l k v) k = some v := by
  simp [ledgerLookup, ledgerSet, List.find?]

theorem ledgerLookup_pop_self (l : Ledger) (k : String) :
    ledgerLookup (ledgerPop l k) k = none := by
  unfold ledgerLookup ledgerPop
  rw [List.find?_eq_none.mpr]
  · rfl
  · intro e he hpred
    have := List.mem_filter.mp he
    simp at hpred this
    exact this.2 hpred

theorem mem_createFile {fs : FileSys} {p q : String} :
    q ∈ createFile fs p ↔ q = p ∨ q ∈ fs := by
  unfold createFile
  split
  · constructor
    · exact Or.inr
    · rintro (rfl | hq)
      · assumption
      · assumption
  · exact List.mem_cons

theorem mem_removeFile {fs : FileSys} {p q : String} :
    q ∈ removeFile fs p ↔ q ∈ fs ∧ ¬(q = p) := by
  simp [removeFile]

/-! ## C10 — decrypted-output naming -/

/-- C10: a decrypt target ending in `.age` is written to the input path with
the final `.age` suffix removed, and a target not ending in `.age` is written
to the input path with `.decrypted` appended. -/
theorem c10_decrypted_output_naming (q p : String) :
    decryptedPathOf (q ++ ".age") = q ∧
    (pyEndsWith p ".age" = false → decryptedPathOf p = p ++ ".decrypted") := by
  constructor
  · have hsuf : (".age" : String).data <:+ (q ++ ".age").data := by
      rw [String.data_append]
      exact ⟨q.data, rfl⟩
    have hend : pyEndsWith (q ++ ".age") ".age" = true := by
      simp [pyEndsWith, hsuf]
    rw [decryptedPathOf, if_pos hend]
    apply String.ext
    show ((q ++ ".age").data.take ((q ++ ".age").data.length - 4)) = q.data
    rw [String.data_append]
    have h4 : (".age" : String).data.length = 4 := rfl
    rw [List.length_append, h4, Nat.add_sub_cancel]
    exact List.take_left q.data _
  · intro hend
    rw [decryptedPathOf, if_neg]
    simp [hend]

/-- Witness for C10 at concrete inputs. -/
theorem c10_decrypted_output_naming_witness :
    decryptedPathOf ("/tmp/doc" ++ ".age") = "/tmp/doc" ∧
    decryptedPathOf "/tmp/doc.txt" = "/tmp/doc.txt" ++ ".decrypted" :=
  ⟨(c10_decrypted_output_naming "/tmp/doc" "/tmp/doc.txt").1,
   (c10_decrypted_output_naming "/tmp/doc" "/tmp/doc.txt").2 (by decide)⟩

/-! ## C3 — success requires zero exit and existing output -/

/-- C3: `encrypt_file` and `decrypt_file` return success exactly when the
spawned tool completed with exit status zero and the expected output file
exists at that moment; in particular a zero exit with no output yields
failure. -/
theorem c3_success_iff_zero_exit_and_output (ev : PtyEvent) :
    ((encrypt_file ev).success = true ↔ ev = .completed 0 true) ∧
    ((decrypt_file ev).success = true ↔ ev = .completed 0 true) := by
  cases ev with
  | completed rc out =>
    constructor
    · simp only [encrypt_file, PtyEvent.completed.injEq]
      split
      · simp_all
      · simp_all [not_and_or]
    · simp only [decrypt_file, PtyEvent.completed.injEq]
      split
      · simp_all
      · simp_all [not_and_or]
  | timedOut out => simp [encrypt_file, decrypt_file]
  | osError out => simp [encrypt_file, decrypt_file]
  | otherError out => simp [encrypt_file, decrypt_file]

/-! ## C2 — cleanup of partial output on failure -/

/-- Counterexample to C2: `encrypt_file` hitting the 120-second timeout
returns failure but does not delete a partially-written output file. -/
theorem c2_counterexample_encrypt_timeout_keeps_output :
    (encrypt_file (.timedOut true)).success = false ∧
    (encrypt_file (.timedOut true)).outputExists = true :=
  ⟨rfl, rfl⟩

/-- C2 (amended): `decrypt_file` deletes a leftover output file on every
failure path; `encrypt_file` deletes it only on the completed-run failure path
(nonzero exit or missing output) and leaves it in place on timeout, OS error
or other exceptions. -/
theorem c2_amended_partial_output_cleanup (ev : PtyEvent) (rc : Int) (out : Bool) :
    ((decrypt_file ev).success = false → (decrypt_file ev).outputExists = false) ∧
    ((encrypt_file (.completed rc out)).success = false →
      (encrypt_file (.completed rc out)).outputExists = false) := by
  constructor
  · intro _
    cases ev with
    | completed rc2 out2 =>
      simp only [decrypt_file]
      split
      · simp_all [decrypt_file]
      · rfl
    | timedOut _ => rfl
    | osError _ => rfl
    | otherError _ => rfl
  · intro h
    simp only [encrypt_file] at h ⊢
    split
    · simp_all
    · rfl

/-- Witness for C2 (amended) at concrete inputs. -/
theorem c2_amended_partial_output_cleanup_witness :
    (decrypt_file (.timedOut true)).outputExists = false ∧
    (encrypt_file (.completed 1 true)).outputExists = false :=
  ⟨(c2_amended_partial_output_cleanup (.timedOut true) 1 true).1 rfl,
   (c2_amended_partial_output_cleanup (.timedOut true) 1 true).2 rfl⟩

/-! ## C8 — secure_delete degradation behaviour -/

/-- Counterexample to C8: when the shred tool is unavailable,
`subprocess.run(['shred', ...])` raises `FileNotFoundError`, which the
`except subprocess.CalledProcessError` handler does not catch: the exception
propagates to the caller and no fallback removal happens. -/
theorem c8_counterexample_missing_shred_raises :
    (secure_delete .toolMissing true).raised = true ∧
    (secure_delete .toolMissing true).fileExists = true :=
  ⟨rfl, rfl⟩

/-- C8 (amended): when shred runs and exits nonzero, `secure_delete` falls
back to an ordinary removal and propagates no exception; when shred succeeds
nothing is raised either; but when the shred tool is unavailable the
`FileNotFoundError` escapes to the caller and the file is left in place. -/
theorem c8_amended_secure_delete_fallback (fallbackOk : Bool) :
    (secure_delete .shredOk fallbackOk).raised = false ∧
    (secure_delete .exitNonzero fallbackOk).raised = false ∧
    (secure_delete .exitNonzero true).fileExists = false ∧
    (secure_delete .toolMissing fallbackOk).raised = true ∧
    (secure_delete .toolMissing fallbackOk).fileExists = true := by
  cases fallbackOk <;> exact ⟨rfl, rfl, rfl, rfl, rfl⟩

/-! ## C1 — zip-slip guard rejects before extraction -/

/-- C1: if the tar member listing of a decrypted archive succeeds and some
member is an absolute path or contains a `..` segment, the archive block stops
at the `ValueError` raise: the archive is rejected and the `tar -xzf`
extraction subprocess is never spawned. -/
theorem c1_zip_slip_rejects_before_extraction (env : DecryptEnv)
    (dp m : String) (members : List String)
    (hgz : pyEndsWith dp ".tar.gz" = true)
    (hlist : env.tarListing dp = some members)
    (hmem : m ∈ members)
    (hbad : pyStartsWith m "/" = true ∨ "..".data ∈ pySplit '/' m.data) :
    (∃ mm, handleArchive env dp = .rejected mm) ∧
      extractionInvoked (handleArchive env dp) = false := by
  have hsusp : suspiciousMember m = true := by
    rcases hbad with h | h
    · simp [suspiciousMember, h]
    · have hinf : "..".data <:+: m.data := infix_of_mem_pySplit h
      simp [suspiciousMember, pyContains, hinf]
  have hfind : (members.find? suspiciousMember).isSome = true :=
    List.find?_isSome.mpr ⟨m, hmem, hsusp⟩
  obtain ⟨mm, hmm⟩ := Option.isSome_iff_exists.mp hfind
  have harch : handleArchive env dp = .rejected mm := by
    simp [handleArchive, hgz, hlist, hmm]
  exact ⟨⟨mm, harch⟩, by rw [harch]; rfl⟩

/-- Witness for C1: a listed archive containing the member `../b` is
rejected without extraction. -/
theorem c1_zip_slip_rejects_before_extraction_witness :
    (∃ mm, handleArchive envBadArchive "x.tar.gz" = .rejected mm) ∧
      extractionInvoked (handleArchive envBadArchive "x.tar.gz") = false :=
  c1_zip_slip_rejects_before_extraction envBadArchive "x.tar.gz" "../b" ["a", "../b"]
    (by decide) rfl (by decide) (Or.inr (by decide))

/-! ## C7 — validate_path and the deny list -/

/-- C7: any path whose resolution is equal to or nested under one of the
deny-listed system roots is rejected by `validate_path`; any absolute path
whose resolution lies outside those roots and contains no `..` segment is
accepted. -/
theorem c7_validate_path_deny_list (realpath : String → String) (path : String) :
    ((∃ pre ∈ dangerousPrefixes,
        realpath path = pre ∨ pyStartsWith (realpath path) (pre ++ "/") = true) →
      validate_path realpath path = false) ∧
    ((pyIsAbs path = true ∧ ¬("..".data ∈ pySplit '/' (realpath path).data) ∧
        (∀ pre ∈ dangerousPrefixes,
          ¬(realpath path = pre) ∧ pyStartsWith (realpath path) (pre ++ "/") = false)) →
      validate_path realpath path = true) := by
  constructor
  · rintro ⟨pre, hpre, hcase⟩
    unfold validate_path
    dsimp only
    split
    · rfl
    · split
      · rfl
      · rw [if_pos]
        apply List.any_eq_true.mpr
        refine ⟨pre, hpre, ?_⟩
        rcases hcase with h | h
        · simp [h]
        · simp [h]
  · rintro ⟨habs, hdot, hout⟩
    have hany : (dangerousPrefixes.any
        (fun pre => pyStartsWith (realpath path) (pre ++ "/") || realpath path == pre))
        = false := by
      rw [List.any_eq_false]
      intro x hx
      obtain ⟨hne, hsw⟩ := hout x hx
      simp [hsw, hne]
    unfold validate_path
    dsimp only
    rw [if_neg (by simp [habs]), if_neg hdot, if_neg (by simp [hany])]

/-- Witness for C7: a file under `/usr` is rejected and a home file accepted,
with `realpath` the identity (already-resolved paths). -/
theorem c7_validate_path_deny_list_witness :
    validate_path id "/usr/bin/ls" = false ∧ validate_path id "/home/x/file" = true :=
  ⟨(c7_validate_path_deny_list id "/usr/bin/ls").1
      ⟨"/usr", by decide, Or.inr (by decide)⟩,
   (c7_validate_path_deny_list id "/home/x/file").2 (by decide)⟩

/-! ## C9 — ledger entry lifecycle -/

/-- Counterexample to C9: `check_rate_limit` on a target with no recorded
failures materialises an (empty) entry for it — the `defaultdict` access
`self._failed_attempts[file_path]` followed by the write-back on line 326
creates the key even though no failure was ever recorded. -/
theorem c9_counterexample_check_creates_entry :
    (check_rate_limit 0 [] "p").1 = true ∧
    ledgerLookup (check_rate_limit 0 [] "p").2 "p" = some [] :=
  ⟨rfl, rfl⟩

/-- C9 (amended): a ledger entry for a target exists only once a failure has
been recorded or a rate-limit check has been performed for it since its last
clear; a check against a target with no entry leaves an empty-list entry
behind (not no entry); a success removes the entry entirely. -/
theorem c9_amended_entry_lifecycle (l : Ledger) (p : String) (now : ℚ) :
    ledgerLookup (clear_failed_attempts l p) p = none ∧
    (ledgerLookup l p = none → ledgerLookup (check_rate_limit now l p).2 p = some []) ∧
    ledgerLookup (record_failed_attempt now l p) p =
      some (((ledgerLookup l p).getD []) ++ [now]) := by
  refine ⟨ledgerLookup_pop_self l p, ?_, ledgerLookup_set_self l p _⟩
  intro hnone
  simp [check_rate_limit, hnone, RATE_LIMIT_MAX_ATTEMPTS, ledgerLookup_set_self]

/-- Witness for C9 (amended) at concrete inputs. -/
theorem c9_amended_entry_lifecycle_witness :
    ledgerLookup (clear_failed_attempts [("p", [1])] "p") "p" = none ∧
    ledgerLookup (check_rate_limit 0 [] "p").2 "p" = some [] ∧
    ledgerLookup (record_failed_attempt 5 [] "p") "p" = some [5] := by
  refine ⟨(c9_amended_entry_lifecycle [("p", [1])] "p" 0).1,
    (c9_amended_entry_lifecycle [] "p" 0).2.1 rfl, ?_⟩
  have h := (c9_amended_entry_lifecycle [] "p" 5).2.2
  simpa using h

/-! ## C4 — rate limiter lockout behaviour -/

/-- Evaluation of `check_rate_limit` when the target has a known entry all of
whose timestamps are inside the pruning window. -/
theorem check_rate_limit_eval (now : ℚ) (l : Ledger) (p : String) (ts : List ℚ)
    (hl : ledgerLookup l p = some ts)
    (hin : ∀ t ∈ ts, now - t < RATE_LIMIT_WINDOW_SECONDS) :
    check_rate_limit now l p =
      ((if RATE_LIMIT_MAX_ATTEMPTS ≤ ts.length then
          (if 0 < RATE_LIMIT_LOCKOUT_SECONDS - (now - ts.getLastD 0) then false else true)
        else true), ledgerSet l p ts) := by
  have hfil : ts.filter (fun t => decide (now - t < RATE_LIMIT_WINDOW_SECONDS)) = ts :=
    List.filter_eq_self.mpr (fun a ha => decide_eq_true (hin a ha))
  simp only [check_rate_limit, hl, Option.getD_some, hfil]
  split
  · split <;> rfl
  · rfl

/-- C4: with exactly three failures recorded for a target inside the 5-minute
window, a check strictly less than 30 seconds after the last failure is
refused, a check strictly more than 30 seconds after it is allowed, and after
a success clears the entry any check is allowed again. -/
theorem c4_rate_limiter_lockout (now now2 t1 t2 t3 : ℚ) (l : Ledger) (p : String)
    (hl : ledgerLookup l p = some [t1, t2, t3])
    (h1 : now - t1 < 300) (h2 : now - t2 < 300) (h3 : now - t3 < 300) :
    ((now - t3 < 30 → (check_rate_limit now l p).1 = false) ∧
      (30 < now - t3 → (check_rate_limit now l p).1 = true)) ∧
    (check_rate_limit now2 (clear_failed_attempts l p) p).1 = true := by
  have hin : ∀ t ∈ [t1, t2, t3], now - t < RATE_LIMIT_WINDOW_SECONDS := by
    intro t ht
    rcases List.mem_cons.mp ht with rfl | ht
    · simpa [RATE_LIMIT_WINDOW_SECONDS] using h1
    rcases List.mem_cons.mp ht with rfl | ht
    · simpa [RATE_LIMIT_WINDOW_SECONDS] using h2
    rcases List.mem_cons.mp ht with rfl | ht
    · simpa [RATE_LIMIT_WINDOW_SECONDS] using h3
    · cases ht
  have heval := check_rate_limit_eval now l p [t1, t2, t3] hl hin
  have hlen : RATE_LIMIT_MAX_ATTEMPTS ≤ ([t1, t2, t3] : List ℚ).length := by
    simp [RATE_LIMIT_MAX_ATTEMPTS]
  have hlast : ([t1, t2, t3] : List ℚ).getLastD 0 = t3 := rfl
  refine ⟨⟨?_, ?_⟩, ?_⟩
  · intro hlt
    rw [heval]
    simp only [if_pos hlen, hlast]
    rw [if_pos]
    simp only [RATE_LIMIT_LOCKOUT_SECONDS]
    linarith
  · intro hgt
    rw [heval]
    simp only [if_pos hlen, hlast]
    rw [if_neg]
    simp only [RATE_LIMIT_LOCKOUT_SECONDS, not_lt]
    linarith
  · have hclear : ledgerLookup (clear_failed_attempts l p) p = none :=
      ledgerLookup_pop_self l p
    simp [check_rate_limit, hclear, RATE_LIMIT_MAX_ATTEMPTS]

/-- Witness for C4 at concrete inputs (failures at 10, 20 and 90; checks at
100 and 121). -/
theorem c4_rate_limiter_lockout_witness :
    (check_rate_limit 100 [("f", [10, 20, 90])] "f").1 = false ∧
    (check_rate_limit 121 [("f", [10, 20, 90])] "f").1 = true ∧
    (check_rate_limit 121 (clear_failed_attempts [("f", [10, 20, 90])] "f") "f").1
      = true := by
  refine ⟨(c4_rate_limiter_lockout 100 121 10 20 90 [("f", [10, 20, 90])] "f" rfl
      (by norm_num) (by norm_num) (by norm_num)).1.1 (by norm_num),
    (c4_rate_limiter_lockout 121 121 10 20 90 [("f", [10, 20, 90])] "f" rfl
      (by norm_num) (by norm_num) (by norm_num)).1.2 (by norm_num),
    (c4_rate_limiter_lockout 121 121 10 20 90 [("f", [10, 20, 90])] "f" rfl
      (by norm_num) (by norm_num) (by norm_num)).2⟩

/-! ## C5 — per-target error isolation in batch decryption -/

/-- Counterexample to C5: a rate-limit lockout on the first target makes
`_do_decrypt_files` return before any target is decrypted — the error is not
aggregated into success/failure counts and the sibling target `b.age` is never
processed. -/
theorem c5_counterexample_rate_limit_aborts_batch :
    (do_decrypt_files envAllOk lockedLedger ["a.age", "b.age"]).outcome =
      .rateLimited "a.age" ∧
    (do_decrypt_files envAllOk lockedLedger ["a.age", "b.age"]).extracted = [] := by
  have hin : ∀ t ∈ ([70, 80, 90] : List ℚ), (100 : ℚ) - t < RATE_LIMIT_WINDOW_SECONDS := by
    intro t ht
    fin_cases ht <;> norm_num [RATE_LIMIT_WINDOW_SECONDS]
  have heval := check_rate_limit_eval 100 lockedLedger "a.age" [70, 80, 90] rfl hin
  have hchk : check_rate_limit 100 lockedLedger "a.age"
      = (false, ledgerSet lockedLedger "a.age" [70, 80, 90]) := by
    rw [heval]
    norm_num [RATE_LIMIT_MAX_ATTEMPTS, RATE_LIMIT_LOCKOUT_SECONDS]
  constructor <;> simp [do_decrypt_files, checkAllRateLimits, envAllOk, hchk]

/-- A `check_rate_limit` call always passes when every ledger entry is an
empty timestamp list, and it preserves that shape. -/
theorem check_rate_limit_allowed_of_empty (now : ℚ) (l : Ledger) (p : String)
    (h : ∀ e ∈ l, e.2 = ([] : List ℚ)) :
    check_rate_limit now l p = (true, ledgerSet l p []) ∧
    (∀ e ∈ ledgerSet l p [], e.2 = ([] : List ℚ)) := by
  have hget : ((ledgerLookup l p).getD []) = [] := by
    rcases hf : l.find? (fun e => decide (e.1 = p)) with _ | e
    · simp [ledgerLookup, hf]
    · have he2 := h e (List.mem_of_find?_eq_some hf)
      simp [ledgerLookup, hf, he2]
  constructor
  · simp [check_rate_limit, hget, RATE_LIMIT_MAX_ATTEMPTS]
  · intro e he
    rcases List.mem_cons.mp he with rfl | he2
    · rfl
    · exact h e (List.mem_filter.mp he2).1

/-- The upfront rate-limit loop of `_do_decrypt_files` blocks nothing when the
ledger holds no timestamps. -/
theorem checkAllRateLimits_of_empty (now : ℚ) (paths : List String) :
    ∀ l : Ledger, (∀ e ∈ l, e.2 = ([] : List ℚ)) →
      ∃ l2, checkAllRateLimits now l paths = (none, l2) := by
  induction paths with
  | nil => exact fun l _ => ⟨l, rfl⟩
  | cons p rest ih =>
    intro l h
    obtain ⟨hchk, hinv⟩ := check_rate_limit_allowed_of_empty now l p h
    obtain ⟨l2, hl2⟩ := ih (ledgerSet l p []) hinv
    exact ⟨l2, by simp [checkAllRateLimits, hchk, hl2]⟩

/-- When the listing of a decrypted archive reports no suspicious member, the
archive block cannot raise the `ValueError`. -/
theorem handleArchive_ne_rejected (env : DecryptEnv) (dp : String)
    (hsafe : ∀ ms, env.tarListing dp = some ms → ms.find? suspiciousMember = none) :
    ∀ m, handleArchive env dp ≠ .rejected m := by
  intro m h
  unfold handleArchive at h
  cases hgz : pyEndsWith dp ".tar.gz" with
  | false =>
    rw [if_pos (by simp [hgz])] at h
    cases h
  | true =>
    rw [if_neg (by simp [hgz])] at h
    rcases hls : env.tarListing dp with _ | members <;> rw [hls] at h <;> dsimp only at h
    · cases hex : env.tarExtractFails dp <;> simp [hex] at h
    · rw [hsafe members hls] at h
      cases hex : env.tarExtractFails dp <;> simp [hex] at h

/-- The main loop of `_do_decrypt_files` visits every path and aggregates one
success or one failure per path, provided no archive member check raises. -/
theorem decryptLoop_outcome (env : DecryptEnv) (paths : List String)
    (hsafe : ∀ p ∈ paths, ∀ ms, env.tarListing (decryptedPathOf p) = some ms →
      ms.find? suspiciousMember = none) :
    ∀ (l : Ledger) (s f : Nat) (ex : List String),
      (decryptLoop env l s f ex paths).outcome =
        .completed (s + paths.countP (fun p => env.decryptOk p))
          (f + paths.countP (fun p => !(env.decryptOk p))) := by
  induction paths with
  | nil => intro l s f ex; simp [decryptLoop]
  | cons p rest ih =>
    intro l s f ex
    have hsafe_p := hsafe p (List.mem_cons_self p rest)
    have hsafe_rest : ∀ q ∈ rest, ∀ ms,
        env.tarListing (decryptedPathOf q) = some ms →
          ms.find? suspiciousMember = none :=
      fun q hq => hsafe q (List.mem_cons_of_mem p hq)
    cases hd : env.decryptOk p with
    | true =>
      have hne := handleArchive_ne_rejected env (decryptedPathOf p) hsafe_p
      have hcs : (p :: rest).countP (fun q => env.decryptOk q) =
          rest.countP (fun q => env.decryptOk q) + 1 := by
        simp [List.countP_cons, hd]
      have hcf : (p :: rest).countP (fun q => !(env.decryptOk q)) =
          rest.countP (fun q => !(env.decryptOk q)) := by
        simp [List.countP_cons, hd]
      rcases harch : handleArchive env (decryptedPathOf p) with _ | m | _ | _
      · have hstep : decryptLoop env l s f ex (p :: rest) =
            decryptLoop env (clear_failed_attempts l p) (s + 1) f ex rest := by
          simp [decryptLoop, hd, harch]
        rw [hstep, ih hsafe_rest (clear_failed_attempts l p) (s + 1) f ex, hcs, hcf]
        congr 1
        omega
      · exact absurd harch (hne m)
      · have hstep : decryptLoop env l s f ex (p :: rest) =
            decryptLoop env (clear_failed_attempts l p) (s + 1) f
              (ex ++ [decryptedPathOf p]) rest := by
          simp [decryptLoop, hd, harch]
        rw [hstep, ih hsafe_rest (clear_failed_attempts l p) (s + 1) f
          (ex ++ [decryptedPathOf p]), hcs, hcf]
        congr 1
        omega
      · have hstep : decryptLoop env l s f ex (p :: rest) =
            decryptLoop env (clear_failed_attempts l p) (s + 1) f ex rest := by
          simp [decryptLoop, hd, harch]
        rw [hstep, ih hsafe_rest (clear_failed_attempts l p) (s + 1) f ex, hcs, hcf]
        congr 1
        omega
    | false =>
      have hcs : (p :: rest).countP (fun q => env.decryptOk q) =
          rest.countP (fun q => env.decryptOk q) := by
        simp [List.countP_cons, hd]
      have hcf : (p :: rest).countP (fun q => !(env.decryptOk q)) =
          rest.countP (fun q => !(env.decryptOk q)) + 1 := by
        simp [List.countP_cons, hd]
      have hstep : decryptLoop env l s f ex (p :: rest) =
          decryptLoop env (record_failed_attempt env.now l p) s (f + 1) ex rest := by
        simp [decryptLoop, hd]
      rw [hstep, ih hsafe_rest (record_failed_attempt env.now l p) s (f + 1) ex, hcs, hcf]
      congr 1
      omega

/-- C5 (amended): a wrong-passphrase failure (or a per-target extraction
failure) on one target is aggregated into the success/failure counts and does
not prevent sibling targets from being processed; but this holds only when no
target is rate limited, every target passes the signature check, and no
decrypted archive contains a suspicious member — a rate-limit lockout or
invalid signature aborts the whole batch upfront, and a suspicious archive
member raises an uncaught `ValueError` that abandons the remaining targets. -/
theorem c5_amended_batch_aggregation (env : DecryptEnv) (l : Ledger)
    (paths : List String)
    (hled : ∀ e ∈ l, e.2 = ([] : List ℚ))
    (hver : ∀ p ∈ paths, env.verifyOk p = true)
    (hpw : env.passwordGiven = true)
    (hsafe : ∀ p ∈ paths, ∀ ms, env.tarListing (decryptedPathOf p) = some ms →
      ms.find? suspiciousMember = none) :
    (do_decrypt_files env l paths).outcome =
      .completed (paths.countP (fun p => env.decryptOk p))
        (paths.countP (fun p => !(env.decryptOk p))) := by
  obtain ⟨l2, hl2⟩ := checkAllRateLimits_of_empty env.now paths l hled
  have hinv : paths.filter (fun p => ¬(env.verifyOk p = true)) = [] := by
    rw [List.filter_eq_nil_iff]
    intro p hp
    simp [hver p hp]
  have hloop := decryptLoop_outcome env paths hsafe l2 0 0 []
  simp only [do_decrypt_files, hl2, hinv, List.map_nil, not_true, hpw]
  simpa using hloop

/-- Witness for C5 (amended): of two targets, `a.age` fails to decrypt and
`b.age` succeeds; both are processed and the counts are aggregated. -/
theorem c5_amended_batch_aggregation_witness :
    (do_decrypt_files envMixed [] ["a.age", "b.age"]).outcome = .completed 1 1 := by
  have h := c5_amended_batch_aggregation envMixed [] ["a.age", "b.age"]
    (by simp)
    (by intro p hp; rfl)
    rfl
    (by intro p hp ms hms; exact Option.noConfusion hms)
  exact h.trans (by decide)

/-! ## C6 — encrypting a single file named report.pdf -/

/-- Counterexample to C6: encrypting the single target
`/home/user/report.pdf` produces `/home/user/report.pdf.tar.gz.age`
(`encrypted_path = f"{tar_path}.age"` with `tar_path` ending in `.tar.gz`),
so no file named `report.pdf.age` exists after the operation. -/
theorem c6_counterexample_output_name_has_tar_gz :
    ("/home/user/report.pdf.age" ∉
      (do_encrypt_items ["/home/user/report.pdf"] ["/home/user/report.pdf"]
        "20251012_120000" true false).fs) ∧
    (do_encrypt_items ["/home/user/report.pdf"] ["/home/user/report.pdf"]
        "20251012_120000" true false).encryptedPath
      = "/home/user/report.pdf.tar.gz.age" := by
  constructor
  · decide
  · rfl

/-- C6 (amended): after successfully encrypting the single target
`/home/user/report.pdf`, the output `/home/user/report.pdf.tar.gz.age` exists
in the target's directory and the intermediate archive
`/home/user/report.pdf.tar.gz` does not exist. -/
theorem c6_amended_single_file_encrypt_names (fs0 : FileSys) (ts : String) :
    (do_encrypt_items fs0 ["/home/user/report.pdf"] ts true false).encryptedPath
      = "/home/user/report.pdf.tar.gz.age" ∧
    "/home/user/report.pdf.tar.gz.age" ∈
      (do_encrypt_items fs0 ["/home/user/report.pdf"] ts true false).fs ∧
    "/home/user/report.pdf.tar.gz" ∉
      (do_encrypt_items fs0 ["/home/user/report.pdf"] ts true false).fs := by
  have hfs : (do_encrypt_items fs0 ["/home/user/report.pdf"] ts true false).fs =
      removeFile
        (createFile (createFile fs0 "/home/user/report.pdf.tar.gz")
          "/home/user/report.pdf.tar.gz.age")
        "/home/user/report.pdf.tar.gz" := rfl
  refine ⟨rfl, ?_, ?_⟩
  · rw [hfs, mem_removeFile]
    exact ⟨mem_createFile.mpr (Or.inl rfl), by decide⟩
  · rw [hfs, mem_removeFile]
    intro hcontra
    exact hcontra.2 rfl

end AgeNautilus
